import Mathlib

/-!
Shallow embedding of the terminal_donut renderer (src/main.cpp) and
verification of the specification's claims about it.

Floating-point values of the C++ source are modelled as real numbers;
`int` values as integers.  The two flat `std::vector`s of a `FrameBuffer`
(length `w*h`, indexed by `y*w + x`) are modelled as total functions on
flat indices; `FrameBuffer::set` touches exactly the flat index `y*w + x`,
as the source does, so cells outside `[0, w*h)` never influence any
in-bounds cell.
-/

namespace Donut

/-- Embeds `struct Vec3` of main.cpp:9-11. -/
structure Vec3 where
  x : ℝ
  y : ℝ
  z : ℝ

/-- Embeds `rotateX` (main.cpp:13-16). -/
noncomputable def rotateX (v : Vec3) (a : ℝ) : Vec3 :=
  ⟨v.x, Real.cos a * v.y - Real.sin a * v.z, Real.sin a * v.y + Real.cos a * v.z⟩

/-- Embeds `rotateY` (main.cpp:17-20). -/
noncomputable def rotateY (v : Vec3) (a : ℝ) : Vec3 :=
  ⟨Real.cos a * v.x + Real.sin a * v.z, v.y, -(Real.sin a) * v.x + Real.cos a * v.z⟩

/-- Embeds `dot` (main.cpp:21). -/
def dot (a b : Vec3) : ℝ := a.x * b.x + a.y * b.y + a.z * b.z

/-- Embeds `normalize` (main.cpp:22-25): scale to unit length, or return
the zero vector when the magnitude is not positive. -/
noncomputable def normalize (v : Vec3) : Vec3 :=
  if Real.sqrt (dot v v) > 0 then
    ⟨v.x / Real.sqrt (dot v v), v.y / Real.sqrt (dot v v),
     v.z / Real.sqrt (dot v v)⟩
  else ⟨0, 0, 0⟩

/-- Models `static_cast<int>` on a float: truncation toward zero. -/
noncomputable def trunc (r : ℝ) : ℤ :=
  if 0 ≤ r then ⌊r⌋ else ⌈r⌉

/-- Constant `R_major` (main.cpp:61). -/
def R_major : ℝ := 1

/-- Constant `R_minor` (main.cpp:62). -/
def R_minor : ℝ := 0.5

/-- Constant `K2`, the camera distance (main.cpp:63). -/
def K2 : ℝ := 3

/-- Projection scale `K1` (main.cpp:64):
`0.75f * std::min(float(fb.h), float(fb.w) / 2.0f)`. -/
noncomputable def K1 (w h : ℤ) : ℝ := 0.75 * min (h : ℝ) ((w : ℝ) / 2)

/-- Constant `xCellAspect` (main.cpp:65). -/
def xCellAspect : ℝ := 2

/-- The light direction (main.cpp:67). -/
noncomputable def light : Vec3 := normalize ⟨-0.5, 0.5, -1⟩

/-- The shading ramp `" .:-=+*#%@"`, darkest to brightest (main.cpp:68). -/
def shades : List Char := [' ', '.', ':', '-', '=', '+', '*', '#', '%', '@']

/-- Value `shadeMax = strlen(shades) - 1` (main.cpp:69). -/
def shadeMax : ℤ := 9

/-- Torus surface point in object space (main.cpp:82-83). -/
noncomputable def torusPoint (theta phi : ℝ) : Vec3 :=
  ⟨(R_major + R_minor * Real.cos theta) * Real.cos phi,
   (R_major + R_minor * Real.cos theta) * Real.sin phi,
   R_minor * Real.sin theta⟩

/-- Unnormalized torus surface normal in object space (main.cpp:84). -/
noncomputable def torusNormal (theta phi : ℝ) : Vec3 :=
  ⟨R_minor * Real.cos theta * Real.cos phi,
   R_minor * Real.cos theta * Real.sin phi,
   R_minor * Real.sin theta⟩

/-- Rotated sample position `rotateY(rotateX(pObj, Ax), Ay)` (main.cpp:87). -/
noncomputable def rotatedPoint (theta phi Ax Ay : ℝ) : Vec3 :=
  rotateY (rotateX (torusPoint theta phi) Ax) Ay

/-- Rotated, renormalized sample normal (main.cpp:88). -/
noncomputable def rotatedNormal (theta phi Ax Ay : ℝ) : Vec3 :=
  normalize (rotateY (rotateX (torusNormal theta phi) Ax) Ay)

/-- Inverse depth `invZ = 1 / (K2 + p.z)` (main.cpp:91). -/
noncomputable def invZOf (theta phi Ax Ay : ℝ) : ℝ :=
  1 / (K2 + (rotatedPoint theta phi Ax Ay).z)

/-- Projected `x_proj = p.x * invZ` (main.cpp:92). -/
noncomputable def xProj (theta phi Ax Ay : ℝ) : ℝ :=
  (rotatedPoint theta phi Ax Ay).x * invZOf theta phi Ax Ay

/-- Projected `y_proj = p.y * invZ` (main.cpp:93). -/
noncomputable def yProj (theta phi Ax Ay : ℝ) : ℝ :=
  (rotatedPoint theta phi Ax Ay).y * invZOf theta phi Ax Ay

/-- Buffer cell x-coordinate (main.cpp:95): truncating cast of
`fb.w * 0.5f + K1 * xCellAspect * x_proj`. -/
noncomputable def cellX (w h : ℤ) (theta phi Ax Ay : ℝ) : ℤ :=
  trunc ((w : ℝ) * 0.5 + K1 w h * xCellAspect * xProj theta phi Ax Ay)

/-- Buffer cell y-coordinate (main.cpp:96): truncating cast of
`fb.h * 0.5f - K1 * y_proj`. -/
noncomputable def cellY (w h : ℤ) (theta phi Ax Ay : ℝ) : ℤ :=
  trunc ((h : ℝ) * 0.5 - K1 w h * yProj theta phi Ax Ay)

/-- Mapping the spec's words for step 6 of the rasterizer, for comparison
with `cellX`: the spec prescribes `round` where the code truncates. -/
noncomputable def cellXRounded (w h : ℤ) (theta phi Ax Ay : ℝ) : ℤ :=
  round ((w : ℝ) * 0.5 + K1 w h * xCellAspect * xProj theta phi Ax Ay)

/-- Luminance `lum = max(0, dot(n, light))` as a function of the dot
product (main.cpp:101). -/
noncomputable def lumOf (d : ℝ) : ℝ := max 0 d

/-- Models `std::clamp(v, lo, hi)` on ints. -/
def clampI (v lo hi : ℤ) : ℤ := min (max v lo) hi

/-- Ramp index `clamp(int(lum * shadeMax), 0, shadeMax)` as a function of
the dot product `dot(n, light)` (main.cpp:102). -/
noncomputable def shadeIdxOfDot (d : ℝ) : ℤ :=
  clampI (trunc (lumOf d * (shadeMax : ℝ))) 0 shadeMax

/-- Glyph `shades[shadeIdx]` as a function of the dot product
(main.cpp:103). -/
noncomputable def glyphOfDot (d : ℝ) : Char :=
  shades.getD (shadeIdxOfDot d).toNat ' '

/-- The glyph the rasterizer selects for the sample at the given angles. -/
noncomputable def glyphOf (theta phi Ax Ay : ℝ) : Char :=
  glyphOfDot (dot (rotatedNormal theta phi Ax Ay) light)

/-- The depth-fill value `-1e9f` of the constructor and of `clear`
(main.cpp:31,34). -/
def sentinel : ℝ := -1e9

/-- Embeds `struct FrameBuffer` (main.cpp:27-41).  The flat vectors
`chars` and `depth` of length `w*h` are modelled as total functions on
the flat index `y*w + x`. -/
structure FrameBuffer where
  w : ℤ
  h : ℤ
  chars : ℤ → Char
  depth : ℤ → ℝ

/-- The constructor `FrameBuffer(W, H)` (main.cpp:31): every cell blank,
every depth the sentinel. -/
def FrameBuffer.new (W H : ℤ) : FrameBuffer :=
  ⟨W, H, fun _ => ' ', fun _ => sentinel⟩

/-- Embeds `FrameBuffer::clear` (main.cpp:32-35). -/
def FrameBuffer.clear (fb : FrameBuffer) : FrameBuffer :=
  { fb with chars := fun _ => ' ', depth := fun _ => sentinel }

/-- Embeds `FrameBuffer::set` (main.cpp:36-39).  Exactly as in the
source, there is no bounds check: the flat index `y*w + x` is written
whenever `invZ` exceeds the stored depth there. -/
noncomputable def FrameBuffer.set (fb : FrameBuffer) (x y : ℤ) (invZ : ℝ)
    (c : Char) : FrameBuffer :=
  if invZ > fb.depth (y * fb.w + x) then
    { fb with depth := Function.update fb.depth (y * fb.w + x) invZ,
              chars := Function.update fb.chars (y * fb.w + x) c }
  else fb

/-- Embeds `FrameBuffer::get` (main.cpp:40). -/
def FrameBuffer.get (fb : FrameBuffer) (x y : ℤ) : Char :=
  fb.chars (y * fb.w + x)

/-- One projected sample as the rasterizer hands it to the buffer:
a target cell, an inverse depth and a glyph. -/
structure Sample where
  x : ℤ
  y : ℤ
  invZ : ℝ
  glyph : Char

/-- The guarded per-sample write of the rasterizer loop body
(main.cpp:98,105): discard the sample when its cell is out of bounds,
otherwise `FrameBuffer::set`. -/
noncomputable def depthTestedWrite (fb : FrameBuffer) (s : Sample) : FrameBuffer :=
  if s.x < 0 ∨ fb.w ≤ s.x ∨ s.y < 0 ∨ fb.h ≤ s.y then fb
  else fb.set s.x s.y s.invZ s.glyph

/-- A frame's worth of guarded writes, in sample order. -/
noncomputable def writeFrame (fb : FrameBuffer) (ss : List Sample) : FrameBuffer :=
  ss.foldl depthTestedWrite fb

/-- The sample the rasterizer produces at angles
`(theta, phi)` under rotations `(Ax, Ay)`, for a `w × h` buffer. -/
noncomputable def rasterSample (w h : ℤ) (theta phi Ax Ay : ℝ) : Sample :=
  ⟨cellX w h theta phi Ax Ay, cellY w h theta phi Ax Ay,
   invZOf theta phi Ax Ay, glyphOf theta phi Ax Ay⟩

/-- The full loop body of `renderTorus` for one `(theta, phi)` sample
(main.cpp:79-105). -/
noncomputable def renderSample (fb : FrameBuffer) (theta phi Ax Ay : ℝ) :
    FrameBuffer :=
  depthTestedWrite fb (rasterSample fb.w fb.h theta phi Ax Ay)

/-- Models `static_cast<int>` on a rational, truncation toward zero (the
compositor's arithmetic never leaves the rationals, so it is modelled
over ℚ). -/
def truncQ (q : ℚ) : ℤ :=
  if 0 ≤ q then ⌊q⌋ else ⌈q⌉

/-- The uniform cover scale `s = max(cols/fb.w, rows/fb.h)` of
`blitVirtualToCurses` (main.cpp:115-117). -/
def blitScale (fb : FrameBuffer) (rows cols : ℤ) : ℚ :=
  max ((cols : ℚ) / (fb.w : ℚ)) ((rows : ℚ) / (fb.h : ℚ))

/-- View width `max(1, int(round(cols * invS)))` (main.cpp:120). -/
def blitViewW (fb : FrameBuffer) (rows cols : ℤ) : ℤ :=
  max 1 (round ((cols : ℚ) * (1 / blitScale fb rows cols)))

/-- View height `max(1, int(round(rows * invS)))` (main.cpp:121). -/
def blitViewH (fb : FrameBuffer) (rows cols : ℤ) : ℤ :=
  max 1 (round ((rows : ℚ) * (1 / blitScale fb rows cols)))

/-- Window origin `x0 = (fb.w - viewW) / 2` in C++ `int` division, which truncates
toward zero (main.cpp:122). -/
def blitX0 (fb : FrameBuffer) (rows cols : ℤ) : ℤ :=
  Int.tdiv (fb.w - blitViewW fb rows cols) 2

/-- Window origin `y0 = (fb.h - viewH) / 2` (main.cpp:123). -/
def blitY0 (fb : FrameBuffer) (rows cols : ℤ) : ℤ :=
  Int.tdiv (fb.h - blitViewH fb rows cols) 2

/-- The glyph `blitVirtualToCurses` sends to terminal cell `(y, x)`
(main.cpp:129-135): nearest-neighbor sample of the buffer, with a NUL
glyph presented as a blank. -/
def blitCell (fb : FrameBuffer) (rows cols y x : ℤ) : Char :=
  let invS : ℚ := 1 / blitScale fb rows cols
  let vy := min (max (blitY0 fb rows cols + truncQ ((y : ℚ) * invS)) 0) (fb.h - 1)
  let vx := min (max (blitX0 fb rows cols + truncQ ((x : ℚ) * invS)) 0) (fb.w - 1)
  let c := fb.get vx vy
  if c = Char.ofNat 0 then ' ' else c

/-! Helper lemmas. -/

lemma dot_rotateX_self (v : Vec3) (a : ℝ) :
    dot (rotateX v a) (rotateX v a) = dot v v := by
  simp only [dot, rotateX]
  linear_combination (v.y ^ 2 + v.z ^ 2) * Real.sin_sq_add_cos_sq a

lemma dot_rotateY_self (v : Vec3) (a : ℝ) :
    dot (rotateY v a) (rotateY v a) = dot v v := by
  simp only [dot, rotateY]
  linear_combination (v.x ^ 2 + v.z ^ 2) * Real.sin_sq_add_cos_sq a

lemma dot_torusPoint_self (theta phi : ℝ) :
    dot (torusPoint theta phi) (torusPoint theta phi) = 5 / 4 + Real.cos theta := by
  simp only [dot, torusPoint, R_major, R_minor]
  have h1 := Real.sin_sq_add_cos_sq phi
  have h2 := Real.sin_sq_add_cos_sq theta
  nlinarith [h1, h2, sq_nonneg (Real.cos theta)]

lemma dot_rotatedPoint_self (theta phi Ax Ay : ℝ) :
    dot (rotatedPoint theta phi Ax Ay) (rotatedPoint theta phi Ax Ay) =
      5 / 4 + Real.cos theta := by
  rw [rotatedPoint, dot_rotateY_self, dot_rotateX_self, dot_torusPoint_self]

lemma abs_rotatedPoint_z_le (theta phi Ax Ay : ℝ) :
    |(rotatedPoint theta phi Ax Ay).z| ≤ 3 / 2 := by
  have h := dot_rotatedPoint_self theta phi Ax Ay
  simp only [dot] at h
  have hc := Real.cos_le_one theta
  rw [abs_le]
  constructor <;>
    nlinarith [sq_nonneg (rotatedPoint theta phi Ax Ay).x,
      sq_nonneg (rotatedPoint theta phi Ax Ay).y]

/-- Lower bound on the projection denominator: the rotated torus never
comes closer than `K2 - (R_major + R_minor) = 3/2` to the camera plane. -/
lemma denom_lower_bound (theta phi Ax Ay : ℝ) :
    3 / 2 ≤ K2 + (rotatedPoint theta phi Ax Ay).z := by
  have h := abs_rotatedPoint_z_le theta phi Ax Ay
  rw [abs_le] at h
  simp only [K2]
  linarith [h.1]

lemma invZOf_pos (theta phi Ax Ay : ℝ) : 0 < invZOf theta phi Ax Ay := by
  have h := denom_lower_bound theta phi Ax Ay
  rw [invZOf]
  positivity

lemma rotateX_zero (v : Vec3) : rotateX v 0 = v := by
  simp [rotateX]

lemma rotateY_zero (v : Vec3) : rotateY v 0 = v := by
  simp [rotateY]

lemma torusPoint_zero : torusPoint 0 0 = ⟨1.5, 0, 0⟩ := by
  simp [torusPoint, R_major, R_minor]
  norm_num

lemma torusNormal_zero : torusNormal 0 0 = ⟨0.5, 0, 0⟩ := by
  simp [torusNormal, R_minor]

lemma rotatedPoint_zero : rotatedPoint 0 0 0 0 = ⟨1.5, 0, 0⟩ := by
  rw [rotatedPoint, torusPoint_zero, rotateX_zero, rotateY_zero]

lemma sqrt_quarter : Real.sqrt (1 / 4) = 1 / 2 := by
  rw [show (1 / 4 : ℝ) = (1 / 2) ^ 2 by norm_num, Real.sqrt_sq (by norm_num)]

lemma rotatedNormal_zero : rotatedNormal 0 0 0 0 = ⟨1, 0, 0⟩ := by
  rw [rotatedNormal, torusNormal_zero, rotateX_zero, rotateY_zero]
  have hd : dot ⟨0.5, 0, 0⟩ ⟨0.5, 0, 0⟩ = 1 / 4 := by
    simp [dot]; norm_num
  rw [normalize, hd, sqrt_quarter, if_pos (by norm_num : (1 / 2 : ℝ) > 0)]
  simp
  norm_num

lemma invZOf_zero : invZOf 0 0 0 0 = 1 / 3 := by
  rw [invZOf, rotatedPoint_zero, K2]
  norm_num

lemma xProj_zero : xProj 0 0 0 0 = 0.5 := by
  rw [xProj, rotatedPoint_zero, invZOf_zero]
  norm_num

lemma yProj_zero : yProj 0 0 0 0 = 0 := by
  rw [yProj, rotatedPoint_zero, invZOf_zero]
  norm_num

lemma sqrt_3half_pos : (0 : ℝ) < Real.sqrt 1.5 := Real.sqrt_pos.2 (by norm_num)

lemma light_eval :
    light = ⟨-0.5 / Real.sqrt 1.5, 0.5 / Real.sqrt 1.5, -1 / Real.sqrt 1.5⟩ := by
  have hd : dot ⟨-0.5, 0.5, -1⟩ ⟨-0.5, 0.5, -1⟩ = (1.5 : ℝ) := by
    simp [dot]; norm_num
  rw [light, normalize, hd, if_pos sqrt_3half_pos]

lemma dot_e1_light : dot ⟨1, 0, 0⟩ light = -0.5 / Real.sqrt 1.5 := by
  rw [light_eval]
  simp [dot]

lemma dot_e1_light_neg : dot ⟨1, 0, 0⟩ light < 0 := by
  rw [dot_e1_light]
  exact div_neg_of_neg_of_pos (by norm_num) sqrt_3half_pos

@[simp] lemma set_w (fb : FrameBuffer) (x y : ℤ) (z : ℝ) (c : Char) :
    (fb.set x y z c).w = fb.w := by
  rw [FrameBuffer.set]
  split <;> rfl

@[simp] lemma set_h (fb : FrameBuffer) (x y : ℤ) (z : ℝ) (c : Char) :
    (fb.set x y z c).h = fb.h := by
  rw [FrameBuffer.set]
  split <;> rfl

@[simp] lemma dtw_w (fb : FrameBuffer) (s : Sample) :
    (depthTestedWrite fb s).w = fb.w := by
  rw [depthTestedWrite]
  split
  · rfl
  · exact set_w fb s.x s.y s.invZ s.glyph

@[simp] lemma dtw_h (fb : FrameBuffer) (s : Sample) :
    (depthTestedWrite fb s).h = fb.h := by
  rw [depthTestedWrite]
  split
  · rfl
  · exact set_h fb s.x s.y s.invZ s.glyph

@[simp] lemma writeFrame_w (ss : List Sample) (fb : FrameBuffer) :
    (writeFrame fb ss).w = fb.w := by
  induction ss generalizing fb with
  | nil => rfl
  | cons s ss ih => rw [writeFrame, List.foldl_cons, ← writeFrame, ih, dtw_w]

@[simp] lemma writeFrame_h (ss : List Sample) (fb : FrameBuffer) :
    (writeFrame fb ss).h = fb.h := by
  induction ss generalizing fb with
  | nil => rfl
  | cons s ss ih => rw [writeFrame, List.foldl_cons, ← writeFrame, ih, dtw_h]

/-- Distinct in-bounds cells of a `w`-wide buffer occupy distinct flat
indices `y * w + x`. -/
lemma flatIndex_inj {w x x' y y' : ℤ} (hx : 0 ≤ x) (hxw : x < w)
    (hx' : 0 ≤ x') (hx'w : x' < w) (h : y * w + x = y' * w + x') :
    x = x' ∧ y = y' := by
  have hw : (0 : ℤ) < w := lt_of_le_of_lt hx hxw
  have e1 : (y * w + x) % w = x := by
    rw [add_comm, Int.add_mul_emod_self, Int.emod_eq_of_lt hx hxw]
  have e2 : (y' * w + x') % w = x' := by
    rw [add_comm, Int.add_mul_emod_self, Int.emod_eq_of_lt hx' hx'w]
  have hxx : x = x' := by rw [← e1, ← e2, h]
  refine ⟨hxx, ?_⟩
  have : y * w = y' * w := by omega
  exact mul_right_cancel₀ (by omega : w ≠ 0) this

/-- Effect of one guarded write on the depth of an in-bounds cell:
a hit raises it to the max with the sample's inverse depth, a miss
leaves it alone. -/
lemma dtw_depth (fb : FrameBuffer) (s : Sample) {x y : ℤ}
    (hx : 0 ≤ x) (hxw : x < fb.w) (hy : 0 ≤ y) (hyh : y < fb.h) :
    (depthTestedWrite fb s).depth (y * fb.w + x) =
      if s.x = x ∧ s.y = y then
        max (fb.depth (y * fb.w + x)) s.invZ
      else fb.depth (y * fb.w + x) := by
  rw [depthTestedWrite]
  by_cases hoob : s.x < 0 ∨ fb.w ≤ s.x ∨ s.y < 0 ∨ fb.h ≤ s.y
  · rw [if_pos hoob, if_neg]
    rintro ⟨rfl, rfl⟩
    omega
  · push_neg at hoob
    obtain ⟨h1, h2, h3, h4⟩ := hoob
    rw [if_neg (by omega), FrameBuffer.set]
    by_cases hcell : s.x = x ∧ s.y = y
    · obtain ⟨rfl, rfl⟩ := hcell
      by_cases hz : s.invZ > fb.depth (s.y * fb.w + s.x)
      · rw [if_pos hz, if_pos ⟨rfl, rfl⟩]
        simp only [Function.update_same]
        exact (max_eq_right (le_of_lt hz)).symm
      · rw [if_neg hz, if_pos ⟨rfl, rfl⟩]
        push_neg at hz
        exact (max_eq_left hz).symm
    · have hidx : s.y * fb.w + s.x ≠ y * fb.w + x := by
        intro hcontra
        exact hcell ⟨(flatIndex_inj h1 h2 hx hxw hcontra).1,
          (flatIndex_inj h1 h2 hx hxw hcontra).2⟩
      by_cases hz : s.invZ > fb.depth (s.y * fb.w + s.x)
      · rw [if_pos hz, if_neg hcell]
        simp only [Function.update_noteq (Ne.symm hidx)]
      · rw [if_neg hz, if_neg hcell]

/-- Effect of one guarded write on the glyph of an in-bounds cell:
only a hit that passes the depth test replaces it. -/
lemma dtw_chars (fb : FrameBuffer) (s : Sample) {x y : ℤ}
    (hx : 0 ≤ x) (hxw : x < fb.w) (hy : 0 ≤ y) (hyh : y < fb.h) :
    (depthTestedWrite fb s).chars (y * fb.w + x) =
      if s.x = x ∧ s.y = y ∧ s.invZ > fb.depth (y * fb.w + x) then s.glyph
      else fb.chars (y * fb.w + x) := by
  rw [depthTestedWrite]
  by_cases hoob : s.x < 0 ∨ fb.w ≤ s.x ∨ s.y < 0 ∨ fb.h ≤ s.y
  · rw [if_pos hoob, if_neg]
    rintro ⟨rfl, rfl, _⟩
    omega
  · push_neg at hoob
    obtain ⟨h1, h2, h3, h4⟩ := hoob
    rw [if_neg (by omega), FrameBuffer.set]
    by_cases hcell : s.x = x ∧ s.y = y
    · obtain ⟨rfl, rfl⟩ := hcell
      by_cases hz : s.invZ > fb.depth (s.y * fb.w + s.x)
      · rw [if_pos hz, if_pos ⟨rfl, rfl, hz⟩]
        simp only [Function.update_same]
      · rw [if_neg hz, if_neg (by tauto)]
    · have hidx : s.y * fb.w + s.x ≠ y * fb.w + x := by
        intro hcontra
        exact hcell ⟨(flatIndex_inj h1 h2 hx hxw hcontra).1,
          (flatIndex_inj h1 h2 hx hxw hcontra).2⟩
      by_cases hz : s.invZ > fb.depth (s.y * fb.w + s.x)
      · rw [if_pos hz, if_neg (by tauto)]
        simp only [Function.update_noteq (Ne.symm hidx)]
      · rw [if_neg hz, if_neg (by tauto)]

/-- After a frame of guarded writes, the depth of an in-bounds cell is
the left fold of `max` over the inverse depths of the samples that hit
that cell, started from the cell's previous depth. -/
lemma writeFrame_depth (ss : List Sample) (fb : FrameBuffer) {x y : ℤ}
    (hx : 0 ≤ x) (hxw : x < fb.w) (hy : 0 ≤ y) (hyh : y < fb.h) :
    (writeFrame fb ss).depth (y * fb.w + x) =
      (ss.filter fun s => decide (s.x = x ∧ s.y = y)).foldl
        (fun a s => max a s.invZ) (fb.depth (y * fb.w + x)) := by
  induction ss generalizing fb with
  | nil => rfl
  | cons s ss ih =>
    rw [writeFrame, List.foldl_cons, ← writeFrame]
    have hw : (depthTestedWrite fb s).w = fb.w := dtw_w fb s
    have hh : (depthTestedWrite fb s).h = fb.h := dtw_h fb s
    have key := ih (depthTestedWrite fb s) (by rw [hw]; exact hxw)
      (by rw [hh]; exact hyh)
    rw [hw] at key
    rw [key, dtw_depth fb s hx hxw hy hyh]
    by_cases hcell : s.x = x ∧ s.y = y
    · rw [if_pos hcell, List.filter_cons, if_pos (decide_eq_true hcell),
        List.foldl_cons]
    · rw [if_neg hcell, List.filter_cons,
        if_neg (by simpa using hcell)]

/-- After a frame of guarded writes, an in-bounds cell is either exactly
as before (no sample overwrote it), or holds the inverse depth and glyph
of one of the samples that hit it. -/
lemma writeFrame_chars_cases (ss : List Sample) (fb : FrameBuffer) {x y : ℤ}
    (hx : 0 ≤ x) (hxw : x < fb.w) (hy : 0 ≤ y) (hyh : y < fb.h) :
    ((writeFrame fb ss).chars (y * fb.w + x) = fb.chars (y * fb.w + x) ∧
     (writeFrame fb ss).depth (y * fb.w + x) = fb.depth (y * fb.w + x)) ∨
    (∃ s ∈ ss, s.x = x ∧ s.y = y ∧
      s.invZ = (writeFrame fb ss).depth (y * fb.w + x) ∧
      s.glyph = (writeFrame fb ss).chars (y * fb.w + x)) := by
  induction ss generalizing fb with
  | nil => exact Or.inl ⟨rfl, rfl⟩
  | cons s ss ih =>
    rw [writeFrame, List.foldl_cons, ← writeFrame]
    have hw : (depthTestedWrite fb s).w = fb.w := dtw_w fb s
    have hh : (depthTestedWrite fb s).h = fb.h := dtw_h fb s
    have key := ih (depthTestedWrite fb s) (by rw [hw]; exact hxw)
      (by rw [hh]; exact hyh)
    rw [hw] at key
    rcases key with ⟨hc, hd⟩ | ⟨s', hs', hsx, hsy, hsz, hsg⟩
    · by_cases hcond : s.x = x ∧ s.y = y ∧ s.invZ > fb.depth (y * fb.w + x)
      · right
        refine ⟨s, List.mem_cons_self s ss, hcond.1, hcond.2.1, ?_, ?_⟩
        · rw [hd, dtw_depth fb s hx hxw hy hyh, if_pos ⟨hcond.1, hcond.2.1⟩]
          exact (max_eq_right (le_of_lt hcond.2.2)).symm
        · rw [hc, dtw_chars fb s hx hxw hy hyh, if_pos hcond]
      · left
        constructor
        · rw [hc, dtw_chars fb s hx hxw hy hyh, if_neg hcond]
        · rw [hd, dtw_depth fb s hx hxw hy hyh]
          by_cases hcell : s.x = x ∧ s.y = y
          · rw [if_pos hcell]
            have hle : ¬s.invZ > fb.depth (y * fb.w + x) := fun hgt =>
              hcond ⟨hcell.1, hcell.2, hgt⟩
            push_neg at hle
            exact max_eq_left hle
          · rw [if_neg hcell]
    · exact Or.inr ⟨s', List.mem_cons_of_mem s hs', hsx, hsy, hsz, hsg⟩

lemma foldl_max_init_le (l : List Sample) (a : ℝ) :
    a ≤ l.foldl (fun b t => max b t.invZ) a := by
  induction l generalizing a with
  | nil => exact le_rfl
  | cons s l ih => exact le_trans (le_max_left a s.invZ) (ih (max a s.invZ))

lemma mem_le_foldl_max :
    ∀ (l : List Sample) (s : Sample), s ∈ l →
      ∀ a : ℝ, s.invZ ≤ l.foldl (fun b t => max b t.invZ) a := by
  intro l
  induction l with
  | nil => intro s hs a; cases hs
  | cons t l ih =>
    intro s hs a
    rw [List.foldl_cons]
    rcases List.mem_cons.1 hs with rfl | hmem
    · exact le_trans (le_max_right a s.invZ) (foldl_max_init_le l _)
    · exact ih s hmem _

lemma set_hit (fb : FrameBuffer) (x y : ℤ) (z : ℝ) (c : Char)
    (h : fb.depth (y * fb.w + x) < z) :
    (fb.set x y z c).depth (y * fb.w + x) = z ∧
    (fb.set x y z c).chars (y * fb.w + x) = c := by
  rw [FrameBuffer.set, if_pos h]
  exact ⟨Function.update_same _ _ _, Function.update_same _ _ _⟩

lemma set_miss (fb : FrameBuffer) (x y : ℤ) (z : ℝ) (c : Char)
    (h : z ≤ fb.depth (y * fb.w + x)) :
    fb.set x y z c = fb := by
  rw [FrameBuffer.set, if_neg (not_lt.2 h)]

lemma set_other (fb : FrameBuffer) (x y : ℤ) (z : ℝ) (c : Char) (i : ℤ)
    (hi : i ≠ y * fb.w + x) :
    (fb.set x y z c).depth i = fb.depth i ∧
    (fb.set x y z c).chars i = fb.chars i := by
  rw [FrameBuffer.set]
  split
  · exact ⟨Function.update_noteq hi _ _, Function.update_noteq hi _ _⟩
  · exact ⟨rfl, rfl⟩

/-- Writing two samples that hit the same in-bounds cell of a fresh
buffer leaves the glyph of one of them, namely one whose inverse depth
is the larger of the two. -/
lemma pair_final (W H : ℤ) (u v : Sample) (x y : ℤ)
    (hx : 0 ≤ x) (hxw : x < W) (hy : 0 ≤ y) (hyh : y < H)
    (eux : u.x = x) (euy : u.y = y) (evx : v.x = x) (evy : v.y = y)
    (hu : sentinel < u.invZ) (_hv : sentinel < v.invZ) :
    ∃ s : Sample, (s = u ∨ s = v) ∧ s.invZ = max u.invZ v.invZ ∧
      (writeFrame (FrameBuffer.new W H) [u, v]).get x y = s.glyph := by
  have hdep := writeFrame_depth [u, v] (FrameBuffer.new W H) hx hxw hy hyh
  have hfil : ([u, v].filter fun s => decide (s.x = x ∧ s.y = y)) = [u, v] := by
    rw [List.filter_cons, if_pos (decide_eq_true ⟨eux, euy⟩),
        List.filter_cons, if_pos (decide_eq_true ⟨evx, evy⟩), List.filter_nil]
  rw [hfil, List.foldl_cons, List.foldl_cons, List.foldl_nil] at hdep
  have hinit : (FrameBuffer.new W H).depth
      (y * (FrameBuffer.new W H).w + x) = sentinel := rfl
  rw [hinit, max_eq_right (le_of_lt hu)] at hdep
  rcases writeFrame_chars_cases [u, v] (FrameBuffer.new W H) hx hxw hy hyh with
    ⟨hc, hd⟩ | ⟨s', hs', _, _, hsz, hsg⟩
  · exfalso
    rw [hdep] at hd
    rw [hinit] at hd
    have hle : u.invZ ≤ max u.invZ v.invZ := le_max_left _ _
    rw [hd] at hle
    linarith
  · have hmem : s' = u ∨ s' = v := by simpa using hs'
    rw [hdep] at hsz
    refine ⟨s', hmem, hsz, ?_⟩
    rw [FrameBuffer.get, writeFrame_w]
    exact hsg.symm

lemma lumOf_nonpos {d : ℝ} (h : d ≤ 0) : lumOf d = 0 := max_eq_left h

lemma shadeIdxOfDot_mono {a b : ℝ} (h : a ≤ b) :
    shadeIdxOfDot a ≤ shadeIdxOfDot b := by
  unfold shadeIdxOfDot clampI
  have h0a : (0 : ℝ) ≤ lumOf a := le_max_left 0 a
  have h0b : (0 : ℝ) ≤ lumOf b := le_max_left 0 b
  have hl : lumOf a ≤ lumOf b := max_le_max le_rfl h
  have hma : (0 : ℝ) ≤ (shadeMax : ℝ) := by norm_num [shadeMax]
  have ht : trunc (lumOf a * (shadeMax : ℝ)) ≤ trunc (lumOf b * (shadeMax : ℝ)) := by
    rw [trunc, trunc, if_pos (mul_nonneg h0a hma), if_pos (mul_nonneg h0b hma)]
    exact Int.floor_le_floor (mul_le_mul_of_nonneg_right hl hma)
  exact min_le_min (max_le_max ht le_rfl) le_rfl

lemma shadeIdxOfDot_nonpos {d : ℝ} (h : d ≤ 0) : shadeIdxOfDot d = 0 := by
  rw [shadeIdxOfDot, lumOf_nonpos h]
  norm_num [trunc, clampI, shadeMax]

lemma glyphOfDot_nonpos {d : ℝ} (h : d ≤ 0) : glyphOfDot d = ' ' := by
  rw [glyphOfDot, shadeIdxOfDot_nonpos h]
  rfl

/-! Claim theorems. -/

/-- C1: after a frame of guarded writes into a fresh buffer, (i) every
in-bounds cell's stored inverse depth is the max-fold, from the
sentinel, over the inverse depths of the samples that mapped to it (so
the sentinel when none did); (ii) whenever some sample mapped to the
cell, the stored glyph and depth are those of a sample attaining that
maximum; (iii) for two samples with distinct inverse depths mapping to
the same cell, the nearer sample's glyph is final in either write
order; (iv) every sample the rasterizer produces has inverse depth
above the sentinel, so (ii) and (iii) cover all rasterizer frames. -/
theorem c1_frame_depth_is_max :
    (∀ (W H : ℤ) (ss : List Sample) (x y : ℤ),
        0 ≤ x → x < W → 0 ≤ y → y < H →
        (writeFrame (FrameBuffer.new W H) ss).depth (y * W + x) =
          (ss.filter fun s => decide (s.x = x ∧ s.y = y)).foldl
            (fun a s => max a s.invZ) sentinel) ∧
    (∀ (W H : ℤ) (ss : List Sample) (x y : ℤ),
        0 ≤ x → x < W → 0 ≤ y → y < H →
        (∀ s ∈ ss, sentinel < s.invZ) →
        (∃ s ∈ ss, s.x = x ∧ s.y = y) →
        ∃ s ∈ ss, s.x = x ∧ s.y = y ∧
          s.invZ = (writeFrame (FrameBuffer.new W H) ss).depth (y * W + x) ∧
          s.glyph = (writeFrame (FrameBuffer.new W H) ss).chars (y * W + x)) ∧
    (∀ (W H : ℤ) (s1 s2 : Sample) (x y : ℤ),
        0 ≤ x → x < W → 0 ≤ y → y < H →
        s1.x = x → s1.y = y → s2.x = x → s2.y = y →
        sentinel < s1.invZ → sentinel < s2.invZ → s1.invZ < s2.invZ →
        (writeFrame (FrameBuffer.new W H) [s1, s2]).get x y = s2.glyph ∧
        (writeFrame (FrameBuffer.new W H) [s2, s1]).get x y = s2.glyph) ∧
    (∀ (w h : ℤ) (theta phi Ax Ay : ℝ),
        sentinel < (rasterSample w h theta phi Ax Ay).invZ) := by
  refine ⟨?_, ?_, ?_, ?_⟩
  · intro W H ss x y hx hxw hy hyh
    exact writeFrame_depth ss (FrameBuffer.new W H) hx hxw hy hyh
  · rintro W H ss x y hx hxw hy hyh hall ⟨s0, hs0, hx0, hy0⟩
    rcases writeFrame_chars_cases ss (FrameBuffer.new W H) hx hxw hy hyh with
      ⟨hc, hd⟩ | ⟨s', hs', hsx, hsy, hsz, hsg⟩
    · exfalso
      have hdep := writeFrame_depth ss (FrameBuffer.new W H) hx hxw hy hyh
      have hmem : s0 ∈ ss.filter fun s => decide (s.x = x ∧ s.y = y) :=
        List.mem_filter.2 ⟨hs0, decide_eq_true ⟨hx0, hy0⟩⟩
      have hle := mem_le_foldl_max _ s0 hmem
        ((FrameBuffer.new W H).depth (y * (FrameBuffer.new W H).w + x))
      rw [← hdep, hd] at hle
      have hgt := hall s0 hs0
      have hinit : (FrameBuffer.new W H).depth
          (y * (FrameBuffer.new W H).w + x) = sentinel := rfl
      rw [hinit] at hle
      linarith
    · exact ⟨s', hs', hsx, hsy, hsz, hsg⟩
  · intro W H s1 s2 x y hx hxw hy hyh e1x e1y e2x e2y h1 h2 h12
    constructor
    · obtain ⟨s, hmem, hsz, hget⟩ :=
        pair_final W H s1 s2 x y hx hxw hy hyh e1x e1y e2x e2y h1 h2
      rcases hmem with rfl | rfl
      · exfalso
        rw [max_eq_right (le_of_lt h12)] at hsz
        exact absurd hsz (ne_of_lt h12)
      · exact hget
    · obtain ⟨s, hmem, hsz, hget⟩ :=
        pair_final W H s2 s1 x y hx hxw hy hyh e2x e2y e1x e1y h2 h1
      rcases hmem with rfl | rfl
      · exact hget
      · exfalso
        rw [max_eq_left (le_of_lt h12)] at hsz
        exact absurd hsz (ne_of_lt h12)
  · intro w h theta phi Ax Ay
    have hpos := invZOf_pos theta phi Ax Ay
    have : sentinel < 0 := by norm_num [sentinel]
    exact lt_trans this hpos

/-- C1 witness: two synthetic samples with depths 1 and 2 aimed at cell
`(0,0)` of a fresh 2-by-2 buffer leave the nearer sample's glyph in
either write order. -/
theorem c1_witness :
    (writeFrame (FrameBuffer.new 2 2)
        [⟨0, 0, 1, 'a'⟩, ⟨0, 0, 2, 'b'⟩]).get 0 0 = 'b' ∧
    (writeFrame (FrameBuffer.new 2 2)
        [⟨0, 0, 2, 'b'⟩, ⟨0, 0, 1, 'a'⟩]).get 0 0 = 'b' := by
  exact c1_frame_depth_is_max.2.2.1 2 2 ⟨0, 0, 1, 'a'⟩ ⟨0, 0, 2, 'b'⟩ 0 0
    le_rfl (by norm_num) le_rfl (by norm_num) rfl rfl rfl rfl
    (by norm_num [sentinel]) (by norm_num [sentinel]) (by norm_num)

/-- C9: the darkest ramp glyph is the space character, identical to the
glyph `clear` resets every cell to; a sample whose dot product is
nonpositive therefore writes a blank glyph, yet still records its
inverse depth, and any subsequent write to that cell with inverse depth
not exceeding it is rejected. -/
theorem c9_darkest_glyph_blank_but_occludes :
    shades.getD 0 ' ' = ' ' ∧
    (∀ (fb : FrameBuffer) (i : ℤ), (fb.clear).chars i = ' ') ∧
    (∀ d : ℝ, d ≤ 0 → glyphOfDot d = ' ') ∧
    (∀ (fb : FrameBuffer) (x y : ℤ) (d : ℝ),
        fb.depth (y * fb.w + x) < d →
        (fb.set x y d ' ').chars (y * fb.w + x) = ' ' ∧
        (fb.set x y d ' ').depth (y * fb.w + x) = d ∧
        ∀ (d' : ℝ) (c' : Char), d' ≤ d →
          (fb.set x y d ' ').set x y d' c' = fb.set x y d ' ') := by
  refine ⟨rfl, fun fb i => rfl, fun d hd => glyphOfDot_nonpos hd, ?_⟩
  intro fb x y d hd
  have hset := set_hit fb x y d ' ' hd
  refine ⟨hset.2, hset.1, ?_⟩
  intro d' c' hd'
  apply set_miss
  rw [set_w, hset.1]
  exact hd'

/-- C9 witness: on a fresh 1-by-1 buffer, a depth-1 blank write lands,
and a later depth-1/2 write of a bright glyph to the same cell is
occluded. -/
theorem c9_witness :
    (FrameBuffer.new 1 1).depth (0 * (FrameBuffer.new 1 1).w + 0) < 1 ∧
    ((1 : ℝ) / 2 ≤ 1) ∧
    ((FrameBuffer.new 1 1).set 0 0 1 ' ').set 0 0 (1 / 2) '@' =
      (FrameBuffer.new 1 1).set 0 0 1 ' ' := by
  have h : (FrameBuffer.new 1 1).depth (0 * (FrameBuffer.new 1 1).w + 0) < 1 := by
    show sentinel < (1 : ℝ)
    norm_num [sentinel]
  have h2 : ((1 : ℝ) / 2) ≤ 1 := by norm_num
  exact ⟨h, h2, (c9_darkest_glyph_blank_but_occludes.2.2.2
    (FrameBuffer.new 1 1) 0 0 1 h).2.2 (1 / 2) '@' h2⟩

/-- C10: the depth test is strict, so a write whose inverse depth
exactly equals the stored depth is a no-op; in particular, of two
equal-depth samples aimed at the same cell of a fresh buffer, the
first one's glyph survives. -/
theorem c10_strict_depth_test_first_write_wins :
    (∀ (fb : FrameBuffer) (x y : ℤ) (c : Char),
        fb.set x y (fb.depth (y * fb.w + x)) c = fb) ∧
    (∀ (W H x y : ℤ) (d : ℝ) (g1 g2 : Char),
        sentinel < d →
        ((FrameBuffer.new W H).set x y d g1).set x y d g2 =
          (FrameBuffer.new W H).set x y d g1 ∧
        (((FrameBuffer.new W H).set x y d g1).set x y d g2).get x y = g1) := by
  constructor
  · intro fb x y c
    exact set_miss fb x y _ c le_rfl
  · intro W H x y d g1 g2 hd
    have h1 : (FrameBuffer.new W H).depth
        (y * (FrameBuffer.new W H).w + x) < d := by
      show sentinel < d
      exact hd
    have hfirst := set_hit (FrameBuffer.new W H) x y d g1 h1
    have hnoop : ((FrameBuffer.new W H).set x y d g1).set x y d g2 =
        (FrameBuffer.new W H).set x y d g1 := by
      apply set_miss
      rw [set_w, hfirst.1]
    refine ⟨hnoop, ?_⟩
    rw [hnoop, FrameBuffer.get, set_w]
    exact hfirst.2

/-- C10 witness: two equal-depth writes to the one cell of a fresh
1-by-1 buffer leave the first glyph. -/
theorem c10_witness :
    sentinel < (1 : ℝ) ∧
    (((FrameBuffer.new 1 1).set 0 0 1 'A').set 0 0 1 'B').get 0 0 = 'A' := by
  have h : sentinel < (1 : ℝ) := by norm_num [sentinel]
  exact ⟨h, (c10_strict_depth_test_first_write_wins.2 1 1 0 0 1 'A' 'B' h).2⟩

/-- C2 (amended): the bounds check lives in the rasterizer loop, not in
`FrameBuffer::set`; the guarded per-sample write is a no-op for an
out-of-bounds cell, and `set` itself overwrites both glyph and depth at
the flat index `y*w + x` exactly when the inverse depth exceeds the
depth stored there (leaving every other index untouched), and is a
no-op otherwise. -/
theorem c2_in_bounds_write_semantics :
    (∀ (fb : FrameBuffer) (s : Sample),
        (s.x < 0 ∨ fb.w ≤ s.x ∨ s.y < 0 ∨ fb.h ≤ s.y) →
        depthTestedWrite fb s = fb) ∧
    (∀ (fb : FrameBuffer) (x y : ℤ) (z : ℝ) (c : Char),
        (fb.depth (y * fb.w + x) < z →
          (fb.set x y z c).depth (y * fb.w + x) = z ∧
          (fb.set x y z c).chars (y * fb.w + x) = c ∧
          ∀ i : ℤ, i ≠ y * fb.w + x →
            (fb.set x y z c).depth i = fb.depth i ∧
            (fb.set x y z c).chars i = fb.chars i) ∧
        (z ≤ fb.depth (y * fb.w + x) → fb.set x y z c = fb)) := by
  constructor
  · intro fb s h
    rw [depthTestedWrite, if_pos h]
  · intro fb x y z c
    exact ⟨fun h => ⟨(set_hit fb x y z c h).1, (set_hit fb x y z c h).2,
        fun i hi => set_other fb x y z c i hi⟩,
      fun h => set_miss fb x y z c h⟩

/-- C2 counterexample: calling `FrameBuffer::set` with the out-of-bounds
coordinate `x = 2` on a 2-by-2 buffer is not a no-op: the flat index
`0*2 + 2` aliases the in-bounds cell `(0, 1)`, whose glyph changes from
the blank to `X`. -/
theorem c2_counterexample_no_bounds_check :
    ¬ (2 < (FrameBuffer.new 2 2).w) ∧
    ((FrameBuffer.new 2 2).set 2 0 1 'X').get 0 1 = 'X' ∧
    (FrameBuffer.new 2 2).get 0 1 = ' ' := by
  refine ⟨by norm_num [FrameBuffer.new], ?_, rfl⟩
  have h : (FrameBuffer.new 2 2).depth (0 * (FrameBuffer.new 2 2).w + 2) < 1 := by
    show sentinel < (1 : ℝ)
    norm_num [sentinel]
  have hc := (set_hit (FrameBuffer.new 2 2) 2 0 1 'X' h).2
  have hidx : (1 : ℤ) * (FrameBuffer.new 2 2).w + 0 =
      0 * (FrameBuffer.new 2 2).w + 2 := by
    show (1 : ℤ) * 2 + 0 = 0 * 2 + 2
    norm_num
  rw [FrameBuffer.get, set_w, hidx]
  exact hc

/-- C2 witness: an in-bounds write into a fresh buffer with depth above
the sentinel lands, and an out-of-bounds sample is discarded by the
guarded write. -/
theorem c2_witness :
    (FrameBuffer.new 2 2).depth (0 * (FrameBuffer.new 2 2).w + 0) < 1 ∧
    ((FrameBuffer.new 2 2).set 0 0 1 'X').chars
      (0 * (FrameBuffer.new 2 2).w + 0) = 'X' ∧
    depthTestedWrite (FrameBuffer.new 2 2) ⟨5, 0, 1, 'Z'⟩ =
      FrameBuffer.new 2 2 := by
  have h : (FrameBuffer.new 2 2).depth (0 * (FrameBuffer.new 2 2).w + 0) < 1 := by
    show sentinel < (1 : ℝ)
    norm_num [sentinel]
  refine ⟨h, ((c2_in_bounds_write_semantics.2 (FrameBuffer.new 2 2) 0 0 1 'X').1
    h).2.1, ?_⟩
  apply c2_in_bounds_write_semantics.1
  right
  left
  show (FrameBuffer.new 2 2).w ≤ 5
  norm_num [FrameBuffer.new]

/-- C4 (amended): for every sample at any rotation angles, the
perspective denominator `K2 + rotatedPosition.z` is at least
`K2 - (R_major + R_minor) = 3/2` (not at least `K2` itself, as the claim
stated), hence positive and never zero, so the division computing the
inverse depth is always well-defined. -/
theorem c4_denominator_positive_lower_bound (theta phi Ax Ay : ℝ) :
    3 / 2 ≤ K2 + (rotatedPoint theta phi Ax Ay).z ∧
    K2 + (rotatedPoint theta phi Ax Ay).z ≠ 0 := by
  have h := denom_lower_bound theta phi Ax Ay
  exact ⟨h, by linarith⟩

/-- C4 counterexample: at rotation angles `Ax = 0`, `Ay = π/2`, the very
first sample of the rasterizer loop (`theta = phi = 0`) has denominator
`K2 + z = 3/2`, which is strictly below the camera-distance constant
`K2 = 3`, refuting the claim that the denominator is always at least the
camera distance. -/
theorem c4_counterexample_denominator_lt_camera :
    K2 + (rotatedPoint 0 0 0 (Real.pi / 2)).z = 3 / 2 ∧ (3 / 2 : ℝ) < K2 := by
  constructor
  · rw [rotatedPoint, torusPoint_zero, rotateX_zero, rotateY]
    simp [Real.cos_pi_div_two, Real.sin_pi_div_two, K2]
    norm_num
  · norm_num [K2]

/-- C3 (amended): the buffer cell of a sample is computed with C++
`static_cast<int>` truncation toward zero, not rounding:
`x = trunc(W/2 + scale*aspect*xProjected)` and
`y = trunc(H/2 - scale*yProjected)`; a sample whose cell falls outside
the buffer bounds is discarded, leaving the buffer unchanged. -/
theorem c3_cell_mapping_truncates_and_discards :
    (∀ (w h : ℤ) (theta phi Ax Ay : ℝ),
        cellX w h theta phi Ax Ay =
          trunc ((w : ℝ) * 0.5 + K1 w h * xCellAspect * xProj theta phi Ax Ay) ∧
        cellY w h theta phi Ax Ay =
          trunc ((h : ℝ) * 0.5 - K1 w h * yProj theta phi Ax Ay)) ∧
    (∀ (fb : FrameBuffer) (theta phi Ax Ay : ℝ),
        (cellX fb.w fb.h theta phi Ax Ay < 0 ∨
         fb.w ≤ cellX fb.w fb.h theta phi Ax Ay ∨
         cellY fb.w fb.h theta phi Ax Ay < 0 ∨
         fb.h ≤ cellY fb.w fb.h theta phi Ax Ay) →
        renderSample fb theta phi Ax Ay = fb) := by
  refine ⟨fun w h theta phi Ax Ay => ⟨rfl, rfl⟩, ?_⟩
  intro fb theta phi Ax Ay h
  rw [renderSample, depthTestedWrite]
  exact if_pos h

/-- C3 counterexample: on a 161-by-90 buffer, the first rasterizer
sample (`theta = phi = 0`, no rotation) has projected screen abscissa
`80.5 + 60.375 = 140.875`; the code's truncation stores it in column
140, while the rounding the claim prescribes would give column 141. -/
theorem c3_counterexample_truncation_not_rounding :
    cellX 161 90 0 0 0 0 = 140 ∧ cellXRounded 161 90 0 0 0 0 = 141 ∧
    cellX 161 90 0 0 0 0 ≠ cellXRounded 161 90 0 0 0 0 := by
  have hK : K1 161 90 = 60.375 := by
    rw [K1, min_eq_right (by norm_num : ((161 : ℤ) : ℝ) / 2 ≤ ((90 : ℤ) : ℝ))]
    norm_num
  have h1 : cellX 161 90 0 0 0 0 = 140 := by
    rw [cellX, xProj_zero, hK, xCellAspect, trunc, if_pos (by norm_num)]
    norm_num
  have h2 : cellXRounded 161 90 0 0 0 0 = 141 := by
    rw [cellXRounded, xProj_zero, hK, xCellAspect, round_eq]
    norm_num
  exact ⟨h1, h2, by rw [h1, h2]; norm_num⟩

/-- C3 witness: a degenerate zero-width buffer makes the very first
sample's cell out of bounds, and the guarded write discards it. -/
theorem c3_witness :
    (FrameBuffer.new 0 5).w ≤
      cellX (FrameBuffer.new 0 5).w (FrameBuffer.new 0 5).h 0 0 0 0 ∧
    renderSample (FrameBuffer.new 0 5) 0 0 0 0 = FrameBuffer.new 0 5 := by
  have hK : K1 0 5 = 0 := by
    rw [K1, min_eq_right (by norm_num : ((0 : ℤ) : ℝ) / 2 ≤ ((5 : ℤ) : ℝ))]
    norm_num
  have hcx : cellX 0 5 0 0 0 0 = 0 := by
    rw [cellX, xProj_zero, hK, trunc, if_pos (by norm_num)]
    norm_num
  have hb : (FrameBuffer.new 0 5).w ≤
      cellX (FrameBuffer.new 0 5).w (FrameBuffer.new 0 5).h 0 0 0 0 := by
    show (0 : ℤ) ≤ cellX 0 5 0 0 0 0
    rw [hcx]
  exact ⟨hb, c3_cell_mapping_truncates_and_discards.2 (FrameBuffer.new 0 5)
    0 0 0 0 (Or.inr (Or.inl hb))⟩

/-- C5 (amended): at `Ax = Ay = 0`, the sample `theta = phi = 0` has
object-space position `(1.5, 0, 0)`, unrotated normal `(0.5, 0, 0)`
normalizing to `(1, 0, 0)`, inverse depth `1/3`, projection
`(0.5, 0)`, Lambert dot product `-0.5/sqrt(1.5)` (between `-0.409` and
`-0.407`, so about `-0.408`) clamping to luminance `0`, and the darkest
(blank) ramp glyph; on a 160-by-90 buffer it is written, with depth
`1/3`, at cell `(140, 45)` - horizontal offset `K1 = 0.75*min(H, W/2)`
from the center, not half the buffer width. -/
theorem c5_concrete_scenario :
    torusPoint 0 0 = ⟨1.5, 0, 0⟩ ∧
    torusNormal 0 0 = ⟨0.5, 0, 0⟩ ∧
    rotatedNormal 0 0 0 0 = ⟨1, 0, 0⟩ ∧
    invZOf 0 0 0 0 = 1 / 3 ∧
    xProj 0 0 0 0 = 0.5 ∧
    yProj 0 0 0 0 = 0 ∧
    dot (rotatedNormal 0 0 0 0) light = -0.5 / Real.sqrt 1.5 ∧
    (-(0.409 : ℝ) < dot (rotatedNormal 0 0 0 0) light ∧
      dot (rotatedNormal 0 0 0 0) light < -(0.407 : ℝ)) ∧
    lumOf (dot (rotatedNormal 0 0 0 0) light) = 0 ∧
    glyphOf 0 0 0 0 = ' ' ∧
    shades.getD 0 ' ' = ' ' ∧
    cellX 160 90 0 0 0 0 = 140 ∧
    cellY 160 90 0 0 0 0 = 45 ∧
    (renderSample (FrameBuffer.new 160 90) 0 0 0 0).get 140 45 = ' ' ∧
    (renderSample (FrameBuffer.new 160 90) 0 0 0 0).depth
      (45 * (FrameBuffer.new 160 90).w + 140) = 1 / 3 := by
  have hdot : dot (rotatedNormal 0 0 0 0) light = -0.5 / Real.sqrt 1.5 := by
    rw [rotatedNormal_zero, dot_e1_light]
  have hs2 : Real.sqrt 1.5 ^ 2 = 1.5 := Real.sq_sqrt (by norm_num)
  have hub : Real.sqrt 1.5 < 1.227 := by
    nlinarith [hs2, sq_nonneg (Real.sqrt 1.5 - 1.227), sqrt_3half_pos]
  have hbracket : -(0.409 : ℝ) < dot (rotatedNormal 0 0 0 0) light ∧
      dot (rotatedNormal 0 0 0 0) light < -(0.407 : ℝ) := by
    rw [hdot]
    constructor
    · rw [lt_div_iff₀ sqrt_3half_pos]
      nlinarith [hs2, sqrt_3half_pos, hub]
    · rw [div_lt_iff₀ sqrt_3half_pos]
      nlinarith [hs2, sqrt_3half_pos, hub]
  have hdotle : dot (rotatedNormal 0 0 0 0) light ≤ 0 := by
    rw [rotatedNormal_zero]
    exact le_of_lt dot_e1_light_neg
  have hlum : lumOf (dot (rotatedNormal 0 0 0 0) light) = 0 :=
    lumOf_nonpos hdotle
  have hglyph : glyphOf 0 0 0 0 = ' ' := glyphOfDot_nonpos hdotle
  have hK : K1 160 90 = 60 := by
    rw [K1, min_eq_right (by norm_num : ((160 : ℤ) : ℝ) / 2 ≤ ((90 : ℤ) : ℝ))]
    norm_num
  have hcx : cellX 160 90 0 0 0 0 = 140 := by
    rw [cellX, xProj_zero, hK, xCellAspect, trunc, if_pos (by norm_num)]
    norm_num
  have hcy : cellY 160 90 0 0 0 0 = 45 := by
    rw [cellY, yProj_zero, hK, trunc, if_pos (by norm_num)]
    norm_num
  have hnoob : ¬((rasterSample (FrameBuffer.new 160 90).w
        (FrameBuffer.new 160 90).h 0 0 0 0).x < 0 ∨
      (FrameBuffer.new 160 90).w ≤ (rasterSample (FrameBuffer.new 160 90).w
        (FrameBuffer.new 160 90).h 0 0 0 0).x ∨
      (rasterSample (FrameBuffer.new 160 90).w
        (FrameBuffer.new 160 90).h 0 0 0 0).y < 0 ∨
      (FrameBuffer.new 160 90).h ≤ (rasterSample (FrameBuffer.new 160 90).w
        (FrameBuffer.new 160 90).h 0 0 0 0).y) := by
    have hxe : (rasterSample (FrameBuffer.new 160 90).w
        (FrameBuffer.new 160 90).h 0 0 0 0).x = 140 := hcx
    have hye : (rasterSample (FrameBuffer.new 160 90).w
        (FrameBuffer.new 160 90).h 0 0 0 0).y = 45 := hcy
    rw [hxe, hye]
    norm_num [FrameBuffer.new]
  have hrender : renderSample (FrameBuffer.new 160 90) 0 0 0 0 =
      (FrameBuffer.new 160 90).set 140 45 (1 / 3) ' ' := by
    rw [renderSample, depthTestedWrite, if_neg hnoob]
    have hxe : (rasterSample (FrameBuffer.new 160 90).w
        (FrameBuffer.new 160 90).h 0 0 0 0).x = 140 := hcx
    have hye : (rasterSample (FrameBuffer.new 160 90).w
        (FrameBuffer.new 160 90).h 0 0 0 0).y = 45 := hcy
    have hze : (rasterSample (FrameBuffer.new 160 90).w
        (FrameBuffer.new 160 90).h 0 0 0 0).invZ = 1 / 3 := invZOf_zero
    have hge : (rasterSample (FrameBuffer.new 160 90).w
        (FrameBuffer.new 160 90).h 0 0 0 0).glyph = ' ' := hglyph
    rw [hxe, hye, hze, hge]
  have hdepth0 : (FrameBuffer.new 160 90).depth
      (45 * (FrameBuffer.new 160 90).w + 140) < 1 / 3 := by
    show sentinel < (1 : ℝ) / 3
    norm_num [sentinel]
  have hset := set_hit (FrameBuffer.new 160 90) 140 45 (1 / 3) ' ' hdepth0
  refine ⟨torusPoint_zero, torusNormal_zero, rotatedNormal_zero, invZOf_zero,
    xProj_zero, yProj_zero, hdot, hbracket, hlum, hglyph, rfl, hcx, hcy, ?_, ?_⟩
  · rw [hrender, FrameBuffer.get, set_w]
    exact hset.2
  · rw [hrender]
    exact hset.1

/-- C5 counterexample: on a 160-by-90 buffer the sample is written at
column 140, but the claim locates it at the cell nearest
buffer-center-plus-half-width, i.e. nearest abscissa `160/2 + 160/2 =
160`; cell 159 is strictly nearer to that abscissa than cell 140, so
the written cell is not the cell the claim names. -/
theorem c5_counterexample_cell_location :
    cellX 160 90 0 0 0 0 = 140 ∧
    |(159 : ℝ) - ((160 : ℝ) / 2 + (160 : ℝ) / 2)| <
      |(140 : ℝ) - ((160 : ℝ) / 2 + (160 : ℝ) / 2)| := by
  have hK : K1 160 90 = 60 := by
    rw [K1, min_eq_right (by norm_num : ((160 : ℤ) : ℝ) / 2 ≤ ((90 : ℤ) : ℝ))]
    norm_num
  have hcx : cellX 160 90 0 0 0 0 = 140 := by
    rw [cellX, xProj_zero, hK, xCellAspect, trunc, if_pos (by norm_num)]
    norm_num
  refine ⟨hcx, ?_⟩
  rw [show (159 : ℝ) - ((160 : ℝ) / 2 + (160 : ℝ) / 2) = -1 by norm_num,
    show (140 : ℝ) - ((160 : ℝ) / 2 + (160 : ℝ) / 2) = -20 by norm_num,
    abs_neg, abs_neg]
  rw [abs_of_nonneg (by norm_num : (0 : ℝ) ≤ 1),
    abs_of_nonneg (by norm_num : (0 : ℝ) ≤ 20)]
  norm_num

/-- C8: `normalize` returns the input scaled to unit length (a positive
multiple of it, with unit dot product with itself) whenever the
magnitude is nonzero, and the zero vector when the magnitude is zero;
the division is only performed under the positive-magnitude guard. -/
theorem c8_normalize_spec (v : Vec3) :
    (Real.sqrt (dot v v) ≠ 0 →
      dot (normalize v) (normalize v) = 1 ∧
      ∃ k : ℝ, 0 < k ∧ normalize v = ⟨k * v.x, k * v.y, k * v.z⟩) ∧
    (Real.sqrt (dot v v) = 0 → normalize v = ⟨0, 0, 0⟩) := by
  have hnn : 0 ≤ dot v v := by
    simp only [dot]
    linarith [mul_self_nonneg v.x, mul_self_nonneg v.y, mul_self_nonneg v.z]
  constructor
  · intro hm
    have hpos : 0 < Real.sqrt (dot v v) :=
      lt_of_le_of_ne (Real.sqrt_nonneg _) (Ne.symm hm)
    have hsq : Real.sqrt (dot v v) * Real.sqrt (dot v v) = dot v v :=
      Real.mul_self_sqrt hnn
    constructor
    · rw [normalize, if_pos hpos]
      simp only [dot] at hsq hm ⊢
      field_simp
      linear_combination hsq.symm
    · refine ⟨1 / Real.sqrt (dot v v), by positivity, ?_⟩
      rw [normalize, if_pos hpos]
      simp only [Vec3.mk.injEq]
      refine ⟨?_, ?_, ?_⟩ <;> ring
  · intro hm
    rw [normalize, if_neg (by rw [hm]; exact lt_irrefl 0)]

/-- C8 witness: the vector `(3, 0, 4)` has nonzero magnitude and its
normalization has unit dot product with itself. -/
theorem c8_witness :
    Real.sqrt (dot ⟨3, 0, 4⟩ ⟨3, 0, 4⟩) ≠ 0 ∧
    dot (normalize ⟨3, 0, 4⟩) (normalize ⟨3, 0, 4⟩) = 1 := by
  have hd : dot ⟨3, 0, 4⟩ ⟨3, 0, 4⟩ = 25 := by
    simp [dot]
    norm_num
  have hm : Real.sqrt (dot ⟨3, 0, 4⟩ ⟨3, 0, 4⟩) ≠ 0 := by
    rw [hd, show (25 : ℝ) = 5 ^ 2 by norm_num, Real.sqrt_sq (by norm_num)]
    norm_num
  exact ⟨hm, ((c8_normalize_spec ⟨3, 0, 4⟩).1 hm).1⟩

/-- C6: when the terminal grid equals the buffer size, the compositor
is the identity: the cover scale is 1, the view window is the whole
buffer with origin `(0, 0)`, and every terminal cell `(y, x)` receives
exactly the glyph stored at buffer cell `(x, y)` (for the glyphs the
program ever stores, which are never the NUL marker). -/
theorem c6_identity_compositing (fb : FrameBuffer) (rows cols : ℤ)
    (hw : 0 < fb.w) (hh : 0 < fb.h) (hc : cols = fb.w) (hr : rows = fb.h) :
    blitScale fb rows cols = 1 ∧
    blitViewW fb rows cols = fb.w ∧
    blitViewH fb rows cols = fb.h ∧
    blitX0 fb rows cols = 0 ∧
    blitY0 fb rows cols = 0 ∧
    (∀ x y : ℤ, 0 ≤ x → x < cols → 0 ≤ y → y < rows →
      fb.get x y ≠ Char.ofNat 0 →
      blitCell fb rows cols y x = fb.get x y) := by
  subst hc hr
  have hw0 : ((fb.w : ℚ)) ≠ 0 := Int.cast_ne_zero.2 (by omega)
  have hh0 : ((fb.h : ℚ)) ≠ 0 := Int.cast_ne_zero.2 (by omega)
  have hs : blitScale fb fb.h fb.w = 1 := by
    rw [blitScale, div_self hw0, div_self hh0, max_self]
  have hvw : blitViewW fb fb.h fb.w = fb.w := by
    rw [blitViewW, hs, show ((fb.w : ℚ) * (1 / 1)) = ((fb.w : ℤ) : ℚ) by ring,
      round_intCast]
    exact max_eq_right (by omega)
  have hvh : blitViewH fb fb.h fb.w = fb.h := by
    rw [blitViewH, hs, show ((fb.h : ℚ) * (1 / 1)) = ((fb.h : ℤ) : ℚ) by ring,
      round_intCast]
    exact max_eq_right (by omega)
  have hx0 : blitX0 fb fb.h fb.w = 0 := by
    rw [blitX0, hvw, sub_self]
    rfl
  have hy0 : blitY0 fb fb.h fb.w = 0 := by
    rw [blitY0, hvh, sub_self]
    rfl
  refine ⟨hs, hvw, hvh, hx0, hy0, ?_⟩
  intro x y hx hxc hy hyr hnz
  have htq : ∀ z : ℤ, 0 ≤ z → truncQ ((z : ℚ) * (1 / 1)) = z := by
    intro z hz
    rw [truncQ, if_pos (by
      rw [show ((z : ℚ) * (1 / 1)) = ((z : ℤ) : ℚ) by ring]
      exact_mod_cast hz)]
    rw [show ((z : ℚ) * (1 / 1)) = ((z : ℤ) : ℚ) by ring, Int.floor_intCast]
  simp only [blitCell]
  rw [hs, hx0, hy0, htq y hy, htq x hx, zero_add, zero_add,
    max_eq_left hy, max_eq_left hx, min_eq_left (by omega : y ≤ fb.h - 1),
    min_eq_left (by omega : x ≤ fb.w - 1), if_neg hnz]

/-- C6 witness: a concrete 2-by-2 buffer composited onto a 2-by-2
terminal maps terminal cell `(1, 0)` to buffer cell `(0, 1)`. -/
theorem c6_witness :
    (FrameBuffer.mk 2 2 (fun i => if i = 2 then 'B' else 'A')
      (fun _ => 0)).get 0 1 ≠ Char.ofNat 0 ∧
    blitCell (FrameBuffer.mk 2 2 (fun i => if i = 2 then 'B' else 'A')
        (fun _ => 0)) 2 2 1 0 =
      (FrameBuffer.mk 2 2 (fun i => if i = 2 then 'B' else 'A')
        (fun _ => 0)).get 0 1 := by
  have hnz : (FrameBuffer.mk 2 2 (fun i => if i = 2 then 'B' else 'A')
      (fun _ => 0)).get 0 1 ≠ Char.ofNat 0 := by
    show (if ((1 : ℤ) * 2 + 0) = 2 then 'B' else 'A') ≠ Char.ofNat 0
    norm_num
    decide
  exact ⟨hnz, (c6_identity_compositing
    (FrameBuffer.mk 2 2 (fun i => if i = 2 then 'B' else 'A') (fun _ => 0))
    2 2 (by norm_num) (by norm_num) rfl rfl).2.2.2.2.2 0 1 le_rfl
    (by norm_num) (by norm_num) (by norm_num) hnz⟩

/-- C7: for the fixed ramp and light, the selected ramp index is
monotone in the Lambert dot product of the sample normal with the light,
and every sample whose dot product is nonpositive gets luminance 0 and
the darkest (index-0) ramp glyph. -/
theorem c7_shading_monotone_and_clamped :
    (∀ t1 p1 a1 b1 t2 p2 a2 b2 : ℝ,
        dot (rotatedNormal t1 p1 a1 b1) light ≤
          dot (rotatedNormal t2 p2 a2 b2) light →
        shadeIdxOfDot (dot (rotatedNormal t1 p1 a1 b1) light) ≤
          shadeIdxOfDot (dot (rotatedNormal t2 p2 a2 b2) light)) ∧
    (∀ t p a b : ℝ,
        dot (rotatedNormal t p a b) light ≤ 0 →
        lumOf (dot (rotatedNormal t p a b) light) = 0 ∧
        shadeIdxOfDot (dot (rotatedNormal t p a b) light) = 0 ∧
        glyphOfDot (dot (rotatedNormal t p a b) light) = shades.getD 0 ' ') := by
  constructor
  · intro t1 p1 a1 b1 t2 p2 a2 b2 h
    exact shadeIdxOfDot_mono h
  · intro t p a b h
    exact ⟨lumOf_nonpos h, shadeIdxOfDot_nonpos h, glyphOfDot_nonpos h⟩

/-- C7 witness: the first rasterizer sample at zero rotation faces away
from the light (nonpositive dot product) and receives luminance 0 and
the index-0 blank glyph; the monotonicity part applied to it is also
instantiated. -/
theorem c7_witness :
    dot (rotatedNormal 0 0 0 0) light ≤ 0 ∧
    shadeIdxOfDot (dot (rotatedNormal 0 0 0 0) light) ≤
      shadeIdxOfDot (dot (rotatedNormal 0 0 0 0) light) ∧
    lumOf (dot (rotatedNormal 0 0 0 0) light) = 0 ∧
    shadeIdxOfDot (dot (rotatedNormal 0 0 0 0) light) = 0 ∧
    glyphOfDot (dot (rotatedNormal 0 0 0 0) light) = shades.getD 0 ' ' := by
  have h : dot (rotatedNormal 0 0 0 0) light ≤ 0 := by
    rw [rotatedNormal_zero]
    exact le_of_lt dot_e1_light_neg
  exact ⟨h, c7_shading_monotone_and_clamped.1 0 0 0 0 0 0 0 0 le_rfl,
    c7_shading_monotone_and_clamped.2 0 0 0 0 h⟩

end Donut
